import Mathlib

/-!
Verification of `script/encrypt-heroku-auth-token.js`.

The script is a linear Node.js workflow: resolve git remotes, fetch a Heroku
auth token, fetch the Travis public key over HTTP, encrypt the token with
openssl, delete the temp files, and write the result into `.travis.yml`.

This file gives a shallow embedding of that script.  External collaborators
(the spawned processes, the HTTP call, the `git-url-parse` and `yaml`
libraries' parse/serialize steps, base64 encoding) are modelled as explicit
inputs: an `Env` record carries their observable behaviour (exit codes,
captured output chunks, response bodies, and the encryption function as an
abstract `String → String → String`).  The filesystem is an association list
from path to contents; the `.travis.yml` file is carried at the parsed
document level, since parsing and serialisation live in the external `yaml`
library.

Conventions kept throughout:
 * `Option String` stands for a JavaScript string that may be `undefined`.
 * A JavaScript function that returns `true` or `undefined` is modelled as
   returning `Bool`, with `false` standing for `undefined`.
 * Thrown errors / rejected promises are `Except` errors.
-/

namespace EncryptHerokuAuthToken

/-! ### Filesystem model

`fs.existsSync`, `fs.readFileSync`, `fs.writeFileSync`, `fs.unlinkSync`
restricted to the paths the script touches.  An `FS` is the working
directory: an association list from file path to file contents (first
binding wins, as `writeFileSync` replaces any previous binding). -/

abbrev FS := List (String × String)

def existsSync (fs : FS) (p : String) : Bool :=
  fs.any (fun e => e.1 == p)

def readFileSync : FS → String → Option String
  | [], _ => none
  | e :: rest, p => if e.1 == p then some e.2 else readFileSync rest p

def writeFileSync (fs : FS) (p s : String) : FS :=
  (p, s) :: fs.filter (fun e => e.1 != p)

/-- `fs.unlinkSync` deletes the file, and throws (`.error`) if it is absent. -/
def unlinkSync (fs : FS) (p : String) : Except String FS :=
  if existsSync fs p then .ok (fs.filter (fun e => e.1 != p))
  else .error "ENOENT"

/-! ### `clean` (source lines 32–39)

```js
const clean = () => {
  const externalFiles = [".tmp.key.pem", ".tmp.token.txt", ".tmp.token.enc"];
  externalFiles.forEach(file => {
    if (fs.existsSync(file)) fs.unlinkSync(file);
  });
};
```
-/

def externalFiles : List String := [".tmp.key.pem", ".tmp.token.txt", ".tmp.token.enc"]

/-- The `forEach` body, threaded over the list: check existence, then unlink.
An `unlinkSync` failure would propagate as a thrown error. -/
def cleanAux : FS → List String → Except String FS
  | fs, [] => .ok fs
  | fs, f :: rest =>
    if existsSync fs f then
      match unlinkSync fs f with
      | .ok fs1 => cleanAux fs1 rest
      | .error e => .error e
    else cleanAux fs rest

def clean (fs : FS) : Except String FS := cleanAux fs externalFiles

/-- Repeated invocation of `clean`, stopping if it ever threw. -/
def cleanIter : Nat → FS → FS
  | 0, fs => fs
  | n + 1, fs =>
    match clean fs with
    | .ok fs1 => cleanIter n fs1
    | .error _ => fs

/-! ### `getOutputFromCommand` (source lines 55–76)

```js
const getOutputFromCommand = async (command, args) => {
  const response = await new Promise((resolve, reject) => {
    const process = spawn(command, args);
    ...
    process.on("close", code => {
      if (code) throw new Error(reject(stderr));
      resolve(stdout);
    });
  });
  return response;
};
```

The spawned process's observable behaviour is its exit code and the chunk
lists collected from its stdout/stderr streams.  A non-zero (truthy) exit
code rejects the awaited promise with the collected stderr (the `throw`
around `reject` additionally raises inside the event callback; either way the
failure is a thrown/rejected error and the run is fatal).  A zero exit code
resolves with the collected stdout chunks. -/

def getOutputFromCommand (exitCode : Nat) (stdout stderr : List String) :
    Except (List String) (List String) :=
  if exitCode != 0 then .error stderr else .ok stdout

/-! ### Remote-identity resolution (source lines 42–52 and 79–90) -/

/-- One entry of `simple-git`'s remote list: a name and its `refs.fetch` URL. -/
structure Remote where
  name : String
  fetchURL : String

/-- What the script consumes from a `git-url-parse` result.  The fields are
`Option String` because the script may hand the parser an `undefined` URL and
use whatever the field access yields. -/
structure GitUrl where
  full_name : Option String
  name : Option String

/-- The repository identifiers `main` destructures. -/
structure Names where
  fullName : Option String
  appName : Option String

def remoteMissingMessage (name : String) : String :=
  s!"It appears that the remote {name} does not exist."

/--
```js
const getRemoteURL = (name, remotes) => {
  try {
    return remotes.filter(remote => remote.name === name)[0].refs.fetch;
  } catch (err) {
    console.log(`It appears that the remote ... does not exist.`, ...);
  }
};
```
When no remote matches, `[0]` is `undefined` and the `.refs` access throws;
the `catch` logs the diagnostic (together with the error object, which we do
not model) and the function returns `undefined`.  Result: the URL (or
`none` for `undefined`) paired with the list of logged messages. -/
def getRemoteURL (name : String) (remotes : List Remote) : Option String × List String :=
  match (remotes.filter (fun remote => remote.name == name)).head? with
  | some remote => (some remote.fetchURL, [])
  | none => (none, [remoteMissingMessage name])

/--
```js
const getNamesFromGit = () =>
  new Promise((resolve, reject) =>
    simpleGit.getRemotes(true, (err, res) => {
      if (err) throw new Error(reject(err));
      resolve({
        fullName: GitUrlParse(getRemoteURL("origin", res)).full_name,
        appName: GitUrlParse(getRemoteURL("heroku", res)).name
      });
    }));
```
`parse` is the external `git-url-parse` library, modelled as a total function
on a possibly-`undefined` URL. -/
def getNamesFromGit (parse : Option String → GitUrl) (remotes : List Remote) :
    Names × List String :=
  let origin := getRemoteURL "origin" remotes
  let heroku := getRemoteURL "heroku" remotes
  (⟨(parse origin.1).full_name, (parse heroku.1).name⟩, origin.2 ++ heroku.2)

/-- JavaScript template-literal interpolation of a possibly-`undefined`
string: `undefined` prints as the literal text `undefined`. -/
def jsInterp (x : Option String) : String := x.getD "undefined"

/-- The URL built at source line 151:
`https://api.travis-ci.org/repos/<fullName>/key`. -/
def travisURL (fullName : Option String) : String :=
  "https://api.travis-ci.org/repos/" ++ jsInterp fullName ++ "/key"

/-! ### Token post-processing (source lines 145–147)

```js
const herokuTokenOut = await getOutputFromCommand("heroku", ["auth:token"]);
const herokuTokenStr = herokuTokenOut.toString("utf-8");
const herokuToken = herokuTokenStr.slice(0, herokuTokenStr.length - 1);
```

`herokuTokenOut` is the resolved array of stdout chunks;
`Array.prototype.toString` ignores the `"utf-8"` argument and joins the
chunks with commas (each chunk decoded as UTF-8).  The `slice` then drops the
final character unconditionally. -/

/-- `s.slice(0, s.length - 1)`: the string minus its final character
(the empty string stays empty). -/
def jsDropLast (s : String) : String := ⟨s.data.dropLast⟩

/-- The token `main` derives from the credential CLI's stdout chunks. -/
def herokuTokenOf (chunks : List String) : String :=
  jsDropLast (String.intercalate "," chunks)

/-! ### YAML document model and `updateTravisYAML` (source lines 107–138)

The `yaml` library's documents are modelled at the level the script uses
them: an ordered list of key/value pairs, where each pair also carries the
comment metadata the script writes (`item.comment`, `item_.commentBefore`),
plus the document-level `doc.comment`.  Parsing and serialisation live in
the external library; the `.travis.yml` file is carried as its parsed
document, and "the file was rewritten" is the `wrote` flag of the result. -/

/-- The metadata of one `Pair` node: its key text and its attached
comments. -/
structure YMeta where
  key : String
  comment : Option String
  commentBefore : Option String

/-- A YAML value node: scalar string, boolean, sequence, or mapping (whose
entries carry `YMeta`). -/
inductive YNode where
  | str : String → YNode
  | boolv : Bool → YNode
  | nullv : YNode
  | seq : List YNode → YNode
  | map : List (YMeta × YNode) → YNode

/-- A parsed document: its top-level mapping items and the document
comment. -/
structure YDoc where
  items : List (YMeta × YNode)
  comment : Option String

/-- A fresh pair as created by `doc.set` / `YAML.createNode`: no comments. -/
def plainMeta (k : String) : YMeta := ⟨k, none, none⟩

/-- `doc.has(k)`. -/
def hasKey (items : List (YMeta × YNode)) (k : String) : Bool :=
  items.any (fun it => it.1.key == k)

/-- `doc.get(k)`: the value of the first pair whose key is `k`. -/
def getKey : List (YMeta × YNode) → String → Option YNode
  | [], _ => none
  | it :: rest, k => if it.1.key == k then some it.2 else getKey rest k

/-- `doc.set(k, v)`: replace the value of an existing pair, else append a new
pair at the end of the mapping. -/
def setKey (items : List (YMeta × YNode)) (k : String) (v : YNode) :
    List (YMeta × YNode) :=
  if hasKey items k then
    items.map (fun it => if it.1.key == k then (it.1, v) else it)
  else items ++ [(plainMeta k, v)]

/-- `YAML.createNode` of a JavaScript string that may be `undefined`
(`undefined` becomes a null node). -/
def ystrOf : Option String → YNode
  | some s => .str s
  | none => .nullv

/-- The node built at source lines 116–124:
`{skip_cleanup: true, provider: "heroku", app: app, api_key: {secure: key}}`. -/
def deployNode (app : Option String) (key : String) : YNode :=
  .map
    [ (plainMeta "skip_cleanup", .boolv true),
      (plainMeta "provider", .str "heroku"),
      (plainMeta "app", ystrOf app),
      (plainMeta "api_key", .map [(plainMeta "secure", .str key)]) ]

/-- Source lines 125–134: for every top-level item whose key is in the
`keyComments` table, attach the table's comment; for the `deploy` item
additionally set `commentBefore` on each of its children from the table
(possibly to `undefined`).  `kc` is the `keyComments.json` table, an external
data file, modelled as a partial map from key to comment text. -/
def applyCommentsItem (kc : String → Option String) (it : YMeta × YNode) :
    YMeta × YNode :=
  if (kc it.1.key).isSome then
    let meta := { it.1 with comment := kc it.1.key }
    let value :=
      if it.1.key == "deploy" then
        match it.2 with
        | .map inner =>
          .map (inner.map (fun p => ({ p.1 with commentBefore := kc p.1.key }, p.2)))
        | other => other
      else it.2
    (meta, value)
  else it

def applyComments (kc : String → Option String) (items : List (YMeta × YNode)) :
    List (YMeta × YNode) :=
  items.map (applyCommentsItem kc)

/-- Erase the comment metadata of the top level of a mapping node, leaving
its keys and values: the mapping's content, as opposed to its rendering. -/
def stripTop : YNode → YNode
  | .map xs => .map (xs.map (fun p => (plainMeta p.1.key, p.2)))
  | v => v

def idempotenceMessage : String :=
  "It appears that your token has been encrypted.\nTo run this script again, delete the `before_deploy` and `deploy` keys\nfrom the .travis.yml file."

def successMessage : String := "Complete! Run `git diff .travis.yml` to check."

/-- Result of `updateTravisYAML`: the (possibly rewritten) document, whether
`fs.writeFileSync(".travis.yml", ...)` ran, what was logged, and the returned
value (`true`, or `undefined` modelled as `false`). -/
structure UpdateOut where
  doc : YDoc
  wrote : Bool
  logs : List String
  ret : Bool

/--
```js
const updateTravisYAML = (app, key) => {
  const travis = fs.readFileSync(".travis.yml", "utf8");
  const doc = YAML.parseDocument(travis);
  if (doc.has("before_deploy")) {
    return console.log(idempotenceMessage);
  }
  doc.set("before_deploy", ["rm -rf node_modules"]);
  doc.set("deploy", YAML.createNode({skip_cleanup: true, provider: "heroku",
                                     app: app, api_key: {secure: key}}));
  doc.contents.items.filter(item => item.key in keyComments).forEach(...);
  doc.comment = "";
  fs.writeFileSync(".travis.yml", doc.toString());
  return true;
};
```
-/
def updateTravisYAML (kc : String → Option String) (app : Option String)
    (key : String) (doc : YDoc) : UpdateOut :=
  if hasKey doc.items "before_deploy" then
    { doc := doc, wrote := false, logs := [idempotenceMessage], ret := false }
  else
    let items1 := setKey doc.items "before_deploy" (.seq [.str "rm -rf node_modules"])
    let items2 := setKey items1 "deploy" (deployNode app key)
    let items3 := applyComments kc items2
    { doc := { items := items3, comment := some "" },
      wrote := true, logs := [], ret := true }

/-! ### `main` (source lines 140–187)

The environment collects the behaviour of every external collaborator for
one run.  `main` is then a deterministic function of the environment, the
verbose flag (`process.argv.hasOwnProperty(2)`), the starting working
directory, and the starting `.travis.yml` document. -/

structure Env where
  /-- `simpleGit.getRemotes`: an error, or the remote list. -/
  gitRemotes : Except String (List Remote)
  /-- The external `git-url-parse` library. -/
  parse : Option String → GitUrl
  /-- `heroku auth:token`: exit code and captured stdout/stderr chunks. -/
  herokuExit : Nat
  herokuOut : List String
  herokuErr : List String
  /-- `axios.get(travisURL)`: a network error, or `response.data.key`. -/
  travisKey : Except String String
  /-- `openssl rsautl -encrypt ...`: its exit code, and its input/output
  behaviour as a function from (public key file contents, plaintext file
  contents) to ciphertext file contents. -/
  opensslExit : Nat
  encrypt : String → String → String
  /-- `Buffer.prototype.toString("base64")`. -/
  base64 : String → String
  /-- The `keyComments.json` table. -/
  keyComments : String → Option String

/-- The six stages of the procedure, as observable events.  An event is
recorded when the corresponding step runs. -/
inductive Event where
  | remoteResolve
  | credentialFetch
  | publicKeyFetch
  | encryptToken
  | documentUpdate
  | cleanupStep
deriving DecidableEq

/-- How the process ends: a normal exit with a code once the event loop
drains, or termination by an unhandled promise rejection / uncaught
exception for which no handler was installed (Node then terminates the
process itself; the script's cleanup handlers never run in that case). -/
inductive ExitStatus where
  | normal : Nat → ExitStatus
  | unhandledRejection : ExitStatus
deriving DecidableEq

/-- The observable outcome of one run of `main`: how the process ended, the
final working directory, the final `.travis.yml` document, whether anything
rewrote it, the console output, the order of executed steps, and whether the
`uncaughtException`/`unhandledRejection` handlers were ever installed. -/
structure Outcome where
  exit : ExitStatus
  files : FS
  travisDoc : YDoc
  travisWritten : Bool
  logs : List String
  trace : List Event
  handlersInstalled : Bool

/-- A rejection of `main`'s promise at a point where the cleanup handlers
have not been installed (they are installed only at the very end of `main`,
source lines 176–186): the filesystem is left exactly as it was. -/
def crashOutcome (fs : FS) (doc : YDoc) (logs : List String) (trace : List Event) :
    Outcome :=
  { exit := .unhandledRejection, files := fs, travisDoc := doc,
    travisWritten := false, logs := logs, trace := trace,
    handlersInstalled := false }

/--
The body of `main`, source lines 140–187, step by step:

```js
const main = async () => {
  const verbose = process.argv.hasOwnProperty(2);
  const { fullName, appName } = await getNamesFromGit();
  const herokuTokenOut = await getOutputFromCommand("heroku", ["auth:token"]);
  const herokuTokenStr = herokuTokenOut.toString("utf-8");
  const herokuToken = herokuTokenStr.slice(0, herokuTokenStr.length - 1);
  if (verbose) console.log("Received Heroku token", herokuToken.toString());
  const travisURL = `https://api.travis-ci.org/repos/.../key`;
  const travisResponse = await axios.get(travisURL);
  const key = travisResponse.data.key;
  if (verbose) console.log("Received Travis pubkey:\n", keyBuffer.toString());
  fs.writeFileSync(".tmp.key.pem", key);
  fs.writeFileSync(".tmp.token.txt", herokuToken);
  await encryptHerokuToken();
  const keyBase64 = fs.readFileSync(".tmp.token.enc").toString("base64");
  if (verbose) console.log("Encrypted key base 64 encoded:", keyBase64);
  clean();
  const update = updateTravisYAML(appName, keyBase64);
  if (update) console.log(successMessage);
  process.on("uncaughtException", () => { clean(); ...; process.exit(1); });
  process.on("unhandledRejection", () => { clean(); ...; process.exit(1); });
};
```

Every `await` that fails rejects `main`'s promise; since the two cleanup
handlers are only registered after the last step, a failure anywhere above
terminates the process without running `clean`. -/
def main (verbose : Bool) (env : Env) (fs0 : FS) (travis0 : YDoc) : Outcome :=
  match env.gitRemotes with
  | .error _ => crashOutcome fs0 travis0 [] [.remoteResolve]
  | .ok remotes =>
    let named := getNamesFromGit env.parse remotes
    let logs0 := named.2
    match getOutputFromCommand env.herokuExit env.herokuOut env.herokuErr with
    | .error _ =>
      crashOutcome fs0 travis0 logs0 [.remoteResolve, .credentialFetch]
    | .ok chunks =>
      let herokuToken := herokuTokenOf chunks
      let logs1 := logs0 ++ (if verbose then [s!"Received Heroku token {herokuToken}"] else [])
      match env.travisKey with
      | .error _ =>
        crashOutcome fs0 travis0 logs1
          [.remoteResolve, .credentialFetch, .publicKeyFetch]
      | .ok key =>
        let logs2 := logs1 ++ (if verbose then [s!"Received Travis pubkey:\n {key}"] else [])
        let fs1 := writeFileSync fs0 ".tmp.key.pem" key
        let fs2 := writeFileSync fs1 ".tmp.token.txt" herokuToken
        if env.opensslExit != 0 then
          crashOutcome fs2 travis0 logs2
            [.remoteResolve, .credentialFetch, .publicKeyFetch, .encryptToken]
        else
          let ciphertext :=
            env.encrypt ((readFileSync fs2 ".tmp.key.pem").getD "")
              ((readFileSync fs2 ".tmp.token.txt").getD "")
          let fs3 := writeFileSync fs2 ".tmp.token.enc" ciphertext
          match readFileSync fs3 ".tmp.token.enc" with
          | none =>
            crashOutcome fs3 travis0 logs2
              [.remoteResolve, .credentialFetch, .publicKeyFetch, .encryptToken]
          | some enc =>
            let keyBase64 := env.base64 enc
            let logs3 :=
              logs2 ++ (if verbose then [s!"Encrypted key base 64 encoded: {keyBase64}"] else [])
            match clean fs3 with
            | .error _ =>
              crashOutcome fs3 travis0 logs3
                [.remoteResolve, .credentialFetch, .publicKeyFetch, .encryptToken,
                 .cleanupStep]
            | .ok fs4 =>
              let upd := updateTravisYAML env.keyComments named.1.appName keyBase64 travis0
              let logs4 := logs3 ++ upd.logs ++ (if upd.ret then [successMessage] else [])
              { exit := .normal 0, files := fs4, travisDoc := upd.doc,
                travisWritten := upd.wrote, logs := logs4,
                trace := [.remoteResolve, .credentialFetch, .publicKeyFetch,
                          .encryptToken, .cleanupStep, .documentUpdate],
                handlersInstalled := true }

/-- A degenerate `git-url-parse` behaviour used for concrete checks: every
field of the parse result is `undefined`. -/
def nullParse : Option String → GitUrl := fun _ => ⟨none, none⟩

/-- A remote list with only `origin` configured, used for concrete checks. -/
def originOnlyRemotes : List Remote := [⟨"origin", "git@github.com:u/r.git"⟩]

/-- A `.travis.yml` document without a `before_deploy` key, used for
concrete checks. -/
def sampleDoc : YDoc := ⟨[(⟨"language", none, none⟩, .str "node_js")], none⟩

/-- A `.travis.yml` document in which a previous run already inserted
`before_deploy`, used for concrete checks. -/
def sampleDoneDoc : YDoc :=
  ⟨[(⟨"language", none, none⟩, .str "node_js"),
    (⟨"before_deploy", none, none⟩, .seq [.str "rm -rf node_modules"])], none⟩

/-- A sample `keyComments.json` table used for concrete checks. -/
def sampleComments : String → Option String :=
  fun k => if k == "deploy" then some "deploy comment" else none

/-- The empty starting document used for concrete runs of `main`. -/
def emptyDoc : YDoc := ⟨[], none⟩

/-- An environment in which every external collaborator succeeds. -/
def envSuccess : Env :=
  { gitRemotes := .ok [⟨"origin", "git@github.com:user/repo.git"⟩,
                       ⟨"heroku", "https://git.heroku.com/app.git"⟩],
    parse := fun _ => ⟨some "user/repo", some "app"⟩,
    herokuExit := 0, herokuOut := ["TOKEN\n"], herokuErr := [],
    travisKey := .ok "PEMKEY",
    opensslExit := 0, encrypt := fun k t => k ++ t, base64 := fun s => s,
    keyComments := fun _ => none }

/-- The same environment except that the openssl encryption step exits with
code 1 (after the key and plaintext temp files were written). -/
def envOpensslFail : Env := { envSuccess with opensslExit := 1 }

/-! ## Theorems -/

/-- `clean` never throws and removes exactly the entries whose path is one of
the three temp files. -/
theorem cleanAux_eq (l : List String) : ∀ fs : FS,
    cleanAux fs l = .ok (fs.filter (fun e => !(l.contains e.1))) := by
  induction l with
  | nil => intro fs; simp [cleanAux]
  | cons f rest ih =>
    intro fs
    by_cases h : existsSync fs f = true
    · rw [cleanAux, if_pos h, unlinkSync, if_pos h]
      show cleanAux (fs.filter (fun e => e.1 != f)) rest = _
      rw [ih, List.filter_filter]
      refine congrArg Except.ok (List.filter_congr ?_)
      intro e he
      by_cases h1 : e.1 = f <;> by_cases h2 : e.1 ∈ rest <;>
        simp [List.contains_cons, h1, h2]
    · rw [cleanAux, if_neg h, ih]
      refine congrArg Except.ok (List.filter_congr ?_)
      intro e he
      have h1 : ¬e.1 = f := by
        intro heq
        exact h (List.any_eq_true.mpr ⟨e, he, by rw [heq]; exact beq_self_eq_true f⟩)
      by_cases h2 : e.1 ∈ rest <;> simp [List.contains_cons, h1, h2]

theorem clean_eq (fs : FS) :
    clean fs = .ok (fs.filter (fun e => !(externalFiles.contains e.1))) :=
  cleanAux_eq externalFiles fs

theorem filter_idem (fs : FS) (p : String × String → Bool) :
    (fs.filter p).filter p = fs.filter p := by
  rw [List.filter_filter]
  congr 1
  funext e
  rcases p e <;> rfl

/-- C4: `clean` always succeeds (never throws, whatever is absent), removes
every temp file that exists, and running it again from the resulting state is
a no-op. -/
theorem clean_removes_and_idempotent (fs : FS) :
    ∃ fs1 : FS, clean fs = .ok fs1 ∧
      (∀ f ∈ externalFiles, existsSync fs1 f = false) ∧
      clean fs1 = .ok fs1 := by
  refine ⟨fs.filter (fun e => !(externalFiles.contains e.1)), clean_eq fs, ?_, ?_⟩
  · intro f hf
    rcases h : existsSync (fs.filter (fun e => !(externalFiles.contains e.1))) f with _ | _
    · rfl
    · exfalso
      rcases List.any_eq_true.mp h with ⟨e, he, hef⟩
      rcases List.mem_filter.mp he with ⟨-, hkeep⟩
      rw [eq_of_beq hef] at hkeep
      simp at hkeep
      exact hkeep hf
  · rw [clean_eq, filter_idem]

/-- Any filter that keeps every entry at path `p` leaves `readFileSync · p`
unchanged. -/
theorem readFileSync_filter (fs : FS) (q : String × String → Bool) (p : String)
    (hq : ∀ e : String × String, e.1 = p → q e = true) :
    readFileSync (fs.filter q) p = readFileSync fs p := by
  induction fs with
  | nil => rfl
  | cons e rest ih =>
    rcases hqe : q e with _ | _
    · have hb : ¬(e.1 == p) = true := by
        intro hb
        exact absurd (hq e (eq_of_beq hb)) (by simp [hqe])
      rw [List.filter_cons_of_neg (by simp [hqe]), ih]
      conv_rhs => rw [readFileSync]
      rw [if_neg hb]
    · rw [List.filter_cons_of_pos hqe]
      by_cases hb : (e.1 == p) = true
      · rw [readFileSync, if_pos hb]
        conv_rhs => rw [readFileSync]
        rw [if_pos hb]
      · rw [readFileSync, if_neg hb, ih]
        conv_rhs => rw [readFileSync]
        rw [if_neg hb]

/-- C10: `clean` only ever deletes the three fixed temp paths: the contents of
any other path — `.travis.yml` included — are unchanged by any number of
invocations. -/
theorem clean_frame (fs : FS) (p : String)
    (hp : externalFiles.contains p = false) (n : Nat) :
    readFileSync (cleanIter n fs) p = readFileSync fs p := by
  induction n generalizing fs with
  | zero => rfl
  | succ n ih =>
    rw [cleanIter, clean_eq, ih]
    apply readFileSync_filter
    intro e he
    rw [he, hp]
    rfl

/-- Concrete check for `clean_frame`: two invocations on a state holding
`.travis.yml` and one temp file leave `.travis.yml` intact. -/
theorem clean_frame_witness :
    externalFiles.contains ".travis.yml" = false ∧
      readFileSync (cleanIter 2 [(".travis.yml", "language: node_js"), (".tmp.key.pem", "K")])
          ".travis.yml" =
        readFileSync [(".travis.yml", "language: node_js"), (".tmp.key.pem", "K")] ".travis.yml" :=
  ⟨by decide,
    clean_frame [(".travis.yml", "language: node_js"), (".tmp.key.pem", "K")] ".travis.yml"
      (by decide) 2⟩

/-- C7: a non-zero exit code of a spawned command yields a rejected (thrown)
error carrying the captured stderr, and a zero exit code resolves with the
captured standard output. -/
theorem getOutputFromCommand_exit (exitCode : Nat) (stdout stderr : List String) :
    (exitCode ≠ 0 → getOutputFromCommand exitCode stdout stderr = .error stderr) ∧
    (exitCode = 0 → getOutputFromCommand exitCode stdout stderr = .ok stdout) := by
  constructor <;> intro h <;> simp [getOutputFromCommand, h]

/-- Concrete check for `getOutputFromCommand_exit` at exit codes 1 and 0. -/
theorem getOutputFromCommand_exit_witness :
    getOutputFromCommand 1 ["out"] ["err"] = .error ["err"] ∧
      getOutputFromCommand 0 ["out"] ["err"] = .ok ["out"] :=
  ⟨(getOutputFromCommand_exit 1 ["out"] ["err"]).1 (by decide),
   (getOutputFromCommand_exit 0 ["out"] ["err"]).2 rfl⟩

/-- C6 fails as stated: a single-chunk stdout `"abc"` with no trailing
newline is not used unchanged — the slice drops its last character. -/
theorem herokuTokenOf_counterexample :
    herokuTokenOf ["abc"] = "ab" ∧ herokuTokenOf ["abc"] ≠ "abc" := by
  constructor <;> decide

/-- C6 amended: the token is the stdout string with its final character
removed, whatever that character is.  When stdout ends with a newline this
strips exactly the trailing newline; stdout without a trailing newline loses
its last character instead. -/
theorem herokuTokenOf_amended (t : String) (c : Char) :
    herokuTokenOf [t ++ String.singleton c] = t ∧ herokuTokenOf [t ++ "\n"] = t := by
  have h : ∀ s : List Char, herokuTokenOf [t ++ String.mk s] = String.mk ((t.data ++ s).dropLast) := by
    intro s
    show jsDropLast (t ++ String.mk s) = _
    rw [jsDropLast, String.data_append]
  constructor
  · rw [show String.singleton c = String.mk [c] from rfl, h [c], List.dropLast_concat]
  · rw [show ("\n" : String) = String.mk ['\n'] from rfl, h ['\n'], List.dropLast_concat]

/-- C8: when the remote called `name` is absent from the remote list,
`getRemoteURL` swallows the lookup error, logs the diagnostic (the full
error object is printed with it), and returns `undefined`;
`getNamesFromGit` keeps going, handing the undefined URL to the parser, so a
missing `origin` surfaces only later, when the HTTP step targets the
malformed URL `https://api.travis-ci.org/repos/undefined/key`, and a missing
`heroku` remote flows into the app identifier. -/
theorem getRemoteURL_missing (name : String) (remotes : List Remote)
    (parse : Option String → GitUrl)
    (h : ∀ r ∈ remotes, r.name ≠ name) :
    getRemoteURL name remotes = (none, [remoteMissingMessage name]) ∧
    (name = "origin" →
      (getNamesFromGit parse remotes).1.fullName = (parse none).full_name ∧
      ((parse none).full_name = none →
        travisURL (getNamesFromGit parse remotes).1.fullName =
          "https://api.travis-ci.org/repos/undefined/key")) ∧
    (name = "heroku" →
      (getNamesFromGit parse remotes).1.appName = (parse none).name) := by
  have hf : remotes.filter (fun remote => remote.name == name) = [] := by
    rw [List.filter_eq_nil_iff]
    intro r hr
    simp [h r hr]
  have hurl : getRemoteURL name remotes = (none, [remoteMissingMessage name]) := by
    rw [getRemoteURL, hf]
    rfl
  refine ⟨hurl, ?_, ?_⟩
  · intro hn
    subst hn
    rw [getNamesFromGit, hurl]
    exact ⟨rfl, fun hp => by rw [hp]; rfl⟩
  · intro hn
    subst hn
    rw [getNamesFromGit, hurl]

/-- Concrete check for `getRemoteURL_missing`: a remote list holding only
`origin`, so that `heroku` is absent. -/
theorem getRemoteURL_missing_witness :
    (∀ r ∈ originOnlyRemotes, r.name ≠ "heroku") ∧
      (getRemoteURL "heroku" originOnlyRemotes = (none, [remoteMissingMessage "heroku"]) ∧
        ("heroku" = "origin" →
          (getNamesFromGit nullParse originOnlyRemotes).1.fullName =
            (nullParse none).full_name ∧
          ((nullParse none).full_name = none →
            travisURL (getNamesFromGit nullParse originOnlyRemotes).1.fullName =
              "https://api.travis-ci.org/repos/undefined/key")) ∧
        ("heroku" = "heroku" →
          (getNamesFromGit nullParse originOnlyRemotes).1.appName = (nullParse none).name)) :=
  ⟨by decide,
    getRemoteURL_missing "heroku" originOnlyRemotes nullParse (by decide)⟩

/-! ### Lemmas about the YAML document operations -/

theorem applyCommentsItem_key (kc : String → Option String) (it : YMeta × YNode) :
    (applyCommentsItem kc it).1.key = it.1.key := by
  rw [applyCommentsItem]
  by_cases h : (kc it.1.key).isSome = true
  · rw [if_pos h]
  · rw [if_neg h]

theorem applyCommentsItem_value (kc : String → Option String) (it : YMeta × YNode)
    (h : (it.1.key == "deploy") = false) :
    (applyCommentsItem kc it).2 = it.2 := by
  rw [applyCommentsItem]
  by_cases hs : (kc it.1.key).isSome = true
  · rw [if_pos hs]
    show (if it.1.key == "deploy" then _ else it.2) = it.2
    rw [h]
    rfl
  · rw [if_neg hs]

theorem stripTop_applyCommentsItem (kc : String → Option String) (it : YMeta × YNode) :
    stripTop (applyCommentsItem kc it).2 = stripTop it.2 := by
  rw [applyCommentsItem]
  by_cases hs : (kc it.1.key).isSome = true
  · rw [if_pos hs]
    by_cases hd : (it.1.key == "deploy") = true
    · show stripTop (if it.1.key == "deploy" then _ else _) = _
      rw [hd]
      show stripTop (match it.2 with
        | .map inner =>
          .map (inner.map (fun p => ({ p.1 with commentBefore := kc p.1.key }, p.2)))
        | other => other) = stripTop it.2
      cases it.2 with
      | map inner =>
        show YNode.map _ = YNode.map _
        rw [List.map_map]
        rfl
      | str s => rfl
      | boolv b => rfl
      | nullv => rfl
      | seq xs => rfl
    · have hd' : (it.1.key == "deploy") = false := by
        rcases hb : it.1.key == "deploy" with _ | _
        · rfl
        · exact absurd hb hd
      show stripTop (if it.1.key == "deploy" then _ else it.2) = _
      rw [hd']
      rfl
  · rw [if_neg hs]

theorem hasKey_map_keyPreserving (f : YMeta × YNode → YMeta × YNode)
    (hf : ∀ it, (f it).1.key = it.1.key) (k : String) (items : List (YMeta × YNode)) :
    hasKey (items.map f) k = hasKey items k := by
  rw [hasKey, hasKey, List.any_map]
  congr 1
  funext it
  simp only [Function.comp_apply]
  rw [hf]

theorem hasKey_applyComments (kc : String → Option String) (k : String)
    (items : List (YMeta × YNode)) :
    hasKey (applyComments kc items) k = hasKey items k := by
  rw [applyComments]
  exact hasKey_map_keyPreserving _ (applyCommentsItem_key kc) k items

theorem hasKey_setKey_self (items : List (YMeta × YNode)) (k : String) (v : YNode) :
    hasKey (setKey items k v) k = true := by
  rw [setKey]
  by_cases h : hasKey items k = true
  · rw [if_pos h]
    rw [hasKey_map_keyPreserving]
    · exact h
    · intro it
      by_cases hb : (it.1.key == k) = true
      · rw [if_pos hb]
      · rw [if_neg hb]
  · rw [if_neg h, hasKey, List.any_append]
    have : hasKey [(plainMeta k, v)] k = true := by
      rw [hasKey, List.any_cons]
      show ((plainMeta k).key == k || _) = true
      rw [plainMeta]
      simp
    rw [hasKey] at this
    rw [this, Bool.or_true]

theorem hasKey_setKey_of_hasKey (items : List (YMeta × YNode)) (k k' : String)
    (v : YNode) (h : hasKey items k' = true) :
    hasKey (setKey items k v) k' = true := by
  rw [setKey]
  by_cases hs : hasKey items k = true
  · rw [if_pos hs]
    rw [hasKey_map_keyPreserving]
    · exact h
    · intro it
      by_cases hb : (it.1.key == k) = true
      · rw [if_pos hb]
      · rw [if_neg hb]
  · rw [if_neg hs, hasKey, List.any_append]
    rw [hasKey] at h
    rw [h, Bool.true_or]

theorem getKey_replace (k : String) (v : YNode) (items : List (YMeta × YNode))
    (h : hasKey items k = true) :
    getKey (items.map (fun it => if it.1.key == k then (it.1, v) else it)) k = some v := by
  induction items with
  | nil => cases h
  | cons it rest ih =>
    by_cases hb : (it.1.key == k) = true
    · simp [List.map_cons, getKey, hb]
    · have hr : hasKey rest k = true := by
        rw [hasKey, List.any_cons] at h
        rcases Bool.or_eq_true_iff.mp h with h1 | h1
        · exact absurd h1 hb
        · exact h1
      have hb' : (it.1.key == k) = false := by
        rcases hx : it.1.key == k with _ | _
        · rfl
        · exact absurd hx hb
      simp only [List.map_cons, getKey, hb', if_false, Bool.false_eq_true]
      exact ih hr

theorem getKey_append_last (k : String) (v : YNode) (items : List (YMeta × YNode))
    (h : hasKey items k = false) :
    getKey (items ++ [(plainMeta k, v)]) k = some v := by
  induction items with
  | nil =>
    show getKey [(plainMeta k, v)] k = some v
    rw [getKey, if_pos]
    show ((plainMeta k).key == k) = true
    rw [plainMeta]
    exact beq_self_eq_true k
  | cons it rest ih =>
    rw [hasKey, List.any_cons] at h
    have hb : (it.1.key == k) = false := by
      rcases hx : it.1.key == k with _ | _
      · rfl
      · rw [hx, Bool.true_or] at h; cases h
    have hr : hasKey rest k = false := by
      rw [hb, Bool.false_or] at h
      exact h
    rw [List.cons_append, getKey, if_neg (by rw [hb]; exact Bool.false_ne_true)]
    exact ih hr

theorem getKey_setKey_self (items : List (YMeta × YNode)) (k : String) (v : YNode) :
    getKey (setKey items k v) k = some v := by
  rw [setKey]
  by_cases h : hasKey items k = true
  · rw [if_pos h]
    exact getKey_replace k v items h
  · rw [if_neg h]
    refine getKey_append_last k v items ?_
    rcases hx : hasKey items k with _ | _
    · rfl
    · exact absurd hx h

theorem getKey_setKey_ne (items : List (YMeta × YNode)) (k k' : String) (v : YNode)
    (hk : k' ≠ k) :
    getKey (setKey items k v) k' = getKey items k' := by
  rw [setKey]
  by_cases h : hasKey items k = true
  · rw [if_pos h]
    clear h
    induction items with
    | nil => rfl
    | cons it rest ih =>
      rw [List.map_cons, getKey]
      conv_rhs => rw [getKey]
      by_cases hb : (it.1.key == k) = true
      · have hb' : (it.1.key == k') = false := by
          rcases hx : it.1.key == k' with _ | _
          · rfl
          · exact absurd (by rw [← eq_of_beq hx, eq_of_beq hb]) hk
        rw [if_pos hb]
        rw [if_neg (show ¬(((it.1, v) : YMeta × YNode).1.key == k') = true by
          rw [hb']; exact Bool.false_ne_true)]
        rw [if_neg (by rw [hb']; exact Bool.false_ne_true), ih]
      · rw [if_neg hb]
        by_cases hb' : (it.1.key == k') = true
        · rw [if_pos hb', if_pos hb']
        · rw [if_neg hb', if_neg hb', ih]
  · rw [if_neg h]
    clear h
    induction items with
    | nil =>
      have hb : ¬((plainMeta k).key == k') = true := by
        intro hx
        exact hk (eq_of_beq hx).symm
      show getKey [(plainMeta k, v)] k' = none
      rw [getKey, if_neg hb]
      rfl
    | cons it rest ih =>
      rw [List.cons_append, getKey]
      conv_rhs => rw [getKey]
      by_cases hb : (it.1.key == k') = true
      · rw [if_pos hb, if_pos hb]
      · rw [if_neg hb, if_neg hb, ih]

theorem getKey_applyComments_ne (kc : String → Option String) (k : String)
    (hk : k ≠ "deploy") (items : List (YMeta × YNode)) :
    getKey (applyComments kc items) k = getKey items k := by
  rw [applyComments]
  induction items with
  | nil => rfl
  | cons it rest ih =>
    rw [List.map_cons, getKey]
    conv_rhs => rw [getKey]
    by_cases hb : (it.1.key == k) = true
    · have hd : (it.1.key == "deploy") = false := by
        rcases hx : it.1.key == "deploy" with _ | _
        · rfl
        · exact absurd (by rw [← eq_of_beq hb, eq_of_beq hx]) hk
      rw [if_pos (show ((applyCommentsItem kc it).1.key == k) = true by
        rw [applyCommentsItem_key]; exact hb)]
      rw [if_pos hb, applyCommentsItem_value kc it hd]
    · have hb' : ((applyCommentsItem kc it).1.key == k) = false := by
        rw [applyCommentsItem_key]
        rcases hx : it.1.key == k with _ | _
        · rfl
        · exact absurd hx hb
      rw [if_neg (by rw [hb']; exact Bool.false_ne_true)]
      rw [if_neg hb, ih]

theorem getKey_applyComments_deploy (kc : String → Option String)
    (items : List (YMeta × YNode)) :
    (getKey (applyComments kc items) "deploy").map stripTop =
      (getKey items "deploy").map stripTop := by
  rw [applyComments]
  induction items with
  | nil => rfl
  | cons it rest ih =>
    rw [List.map_cons, getKey]
    conv_rhs => rw [getKey]
    by_cases hb : (it.1.key == "deploy") = true
    · rw [if_pos (show ((applyCommentsItem kc it).1.key == "deploy") = true by
        rw [applyCommentsItem_key]; exact hb)]
      rw [if_pos hb]
      show some (stripTop (applyCommentsItem kc it).2) = some (stripTop it.2)
      rw [stripTop_applyCommentsItem]
    · have hb' : ((applyCommentsItem kc it).1.key == "deploy") = false := by
        rw [applyCommentsItem_key]
        rcases hx : it.1.key == "deploy" with _ | _
        · rfl
        · exact absurd hx hb
      rw [if_neg (by rw [hb']; exact Bool.false_ne_true)]
      rw [if_neg hb]
      exact ih

/-- C2: on a document without a `before_deploy` key, `updateTravisYAML`
rewrites the file (`wrote = true`), returns `true`, and afterwards the
document maps `before_deploy` to the one-element sequence
`["rm -rf node_modules"]` and `deploy` to the mapping
`{skip_cleanup: true, provider: "heroku", app: <app>, api_key: {secure: <key>}}`
(the mapping's keys and values; `stripTop` discards only the comment
metadata the script may attach to the `deploy` entries). -/
theorem updateTravisYAML_applies (kc : String → Option String) (app : Option String)
    (key : String) (doc : YDoc) (h : hasKey doc.items "before_deploy" = false) :
    (updateTravisYAML kc app key doc).ret = true ∧
    (updateTravisYAML kc app key doc).wrote = true ∧
    getKey (updateTravisYAML kc app key doc).doc.items "before_deploy" =
      some (.seq [.str "rm -rf node_modules"]) ∧
    (getKey (updateTravisYAML kc app key doc).doc.items "deploy").map stripTop =
      some (deployNode app key) := by
  have hbr : updateTravisYAML kc app key doc =
      UpdateOut.mk
        (YDoc.mk
          (applyComments kc
            (setKey (setKey doc.items "before_deploy" (YNode.seq [YNode.str "rm -rf node_modules"]))
              "deploy" (deployNode app key)))
          (some ""))
        true [] true := by
    rw [updateTravisYAML, if_neg (by rw [h]; exact Bool.false_ne_true)]
  rw [hbr]
  refine ⟨rfl, rfl, ?_, ?_⟩
  · show getKey (applyComments kc _) "before_deploy" = _
    rw [getKey_applyComments_ne kc "before_deploy" (by decide)]
    rw [getKey_setKey_ne _ "deploy" "before_deploy" _ (by decide)]
    exact getKey_setKey_self doc.items "before_deploy" _
  · show (getKey (applyComments kc _) "deploy").map stripTop = _
    rw [getKey_applyComments_deploy, getKey_setKey_self]
    rfl

/-- Concrete check for `updateTravisYAML_applies` on a one-key document. -/
theorem updateTravisYAML_applies_witness :
    hasKey sampleDoc.items "before_deploy" = false ∧
      ((updateTravisYAML sampleComments (some "app") "B64" sampleDoc).ret = true ∧
        (updateTravisYAML sampleComments (some "app") "B64" sampleDoc).wrote = true ∧
        getKey (updateTravisYAML sampleComments (some "app") "B64" sampleDoc).doc.items
            "before_deploy" = some (.seq [.str "rm -rf node_modules"]) ∧
        (getKey (updateTravisYAML sampleComments (some "app") "B64" sampleDoc).doc.items
              "deploy").map stripTop = some (deployNode (some "app") "B64")) :=
  ⟨by decide,
    updateTravisYAML_applies sampleComments (some "app") "B64" sampleDoc (by decide)⟩

/-- After any run of `updateTravisYAML`, the resulting document has a
`before_deploy` key (either it already had one and is untouched, or the run
just inserted it). -/
theorem updateTravisYAML_result_hasKey (kc : String → Option String)
    (app : Option String) (key : String) (d : YDoc) :
    hasKey (updateTravisYAML kc app key d).doc.items "before_deploy" = true := by
  by_cases hd : hasKey d.items "before_deploy" = true
  · rw [updateTravisYAML, if_pos hd]
    exact hd
  · rw [updateTravisYAML, if_neg hd]
    show hasKey (applyComments kc _) "before_deploy" = true
    rw [hasKey_applyComments]
    exact hasKey_setKey_of_hasKey _ "deploy" "before_deploy" _
      (hasKey_setKey_self d.items "before_deploy" _)

/-- C3: on a document that already has a `before_deploy` key,
`updateTravisYAML` leaves the document untouched and performs no write, logs
the informational idempotence message, and returns a non-`true` value
(JavaScript `undefined`, `false` here); moreover running the update twice,
from any document, changes nothing the second time. -/
theorem updateTravisYAML_noop (kc : String → Option String) (app : Option String)
    (key : String) (doc : YDoc) (h : hasKey doc.items "before_deploy" = true) :
    (updateTravisYAML kc app key doc).doc = doc ∧
    (updateTravisYAML kc app key doc).wrote = false ∧
    (updateTravisYAML kc app key doc).ret = false ∧
    (updateTravisYAML kc app key doc).logs = [idempotenceMessage] ∧
    (∀ d : YDoc,
      (updateTravisYAML kc app key (updateTravisYAML kc app key d).doc).doc =
        (updateTravisYAML kc app key d).doc) := by
  have hbr : updateTravisYAML kc app key doc =
      { doc := doc, wrote := false, logs := [idempotenceMessage], ret := false } := by
    rw [updateTravisYAML, if_pos h]
  refine ⟨by rw [hbr], by rw [hbr], by rw [hbr], by rw [hbr], ?_⟩
  intro d
  rw [updateTravisYAML, if_pos (updateTravisYAML_result_hasKey kc app key d)]

/-- Concrete check for `updateTravisYAML_noop` on a document a previous run
already updated. -/
theorem updateTravisYAML_noop_witness :
    hasKey sampleDoneDoc.items "before_deploy" = true ∧
      ((updateTravisYAML sampleComments (some "app") "B64" sampleDoneDoc).doc =
          sampleDoneDoc ∧
        (updateTravisYAML sampleComments (some "app") "B64" sampleDoneDoc).wrote = false ∧
        (updateTravisYAML sampleComments (some "app") "B64" sampleDoneDoc).ret = false ∧
        (updateTravisYAML sampleComments (some "app") "B64" sampleDoneDoc).logs =
          [idempotenceMessage] ∧
        (∀ d : YDoc,
          (updateTravisYAML sampleComments (some "app") "B64"
                (updateTravisYAML sampleComments (some "app") "B64" d).doc).doc =
            (updateTravisYAML sampleComments (some "app") "B64" d).doc)) :=
  ⟨by decide,
    updateTravisYAML_noop sampleComments (some "app") "B64" sampleDoneDoc (by decide)⟩

/-! ### Theorems about `main` -/

theorem readFileSync_writeFileSync (fs : FS) (p s : String) :
    readFileSync (writeFileSync fs p s) p = some s := by
  rw [writeFileSync, readFileSync, if_pos]
  show (p == p) = true
  exact beq_self_eq_true p

/-- C1 evaluated at its failing input: in the run where openssl (step 4)
exits non-zero, `main`'s promise rejects before the
`uncaughtException`/`unhandledRejection` handlers are installed (they are
registered only after step 5, at the very end of `main`), so no cleanup runs
and both `.tmp.key.pem` and `.tmp.token.txt` are still on disk when the
process is torn down. -/
theorem main_error_skips_cleanup :
    (main false envOpensslFail [] emptyDoc).exit = .unhandledRejection ∧
    (main false envOpensslFail [] emptyDoc).handlersInstalled = false ∧
    Event.cleanupStep ∉ (main false envOpensslFail [] emptyDoc).trace ∧
    existsSync (main false envOpensslFail [] emptyDoc).files ".tmp.key.pem" = true ∧
    existsSync (main false envOpensslFail [] emptyDoc).files ".tmp.token.txt" = true := by
  decide

/-- C5 fails as stated: on a fully successful concrete run, cleanup (step 6
of the spec) executes before the document update (step 5 of the spec), not
after it — `clean()` is called at source line 169, `updateTravisYAML` at
line 172. -/
theorem main_cleanup_before_update_counterexample :
    (main false envSuccess [] emptyDoc).exit = .normal 0 ∧
    (main false envSuccess [] emptyDoc).trace =
      [.remoteResolve, .credentialFetch, .publicKeyFetch, .encryptToken,
       .cleanupStep, .documentUpdate] ∧
    (main false envSuccess [] emptyDoc).trace ≠
      [.remoteResolve, .credentialFetch, .publicKeyFetch, .encryptToken,
       .documentUpdate, .cleanupStep] := by
  decide

/-- C5 amended: on every successful run the steps execute strictly in the
order remote resolution, credential fetch, public-key fetch, encryption,
temp-file cleanup, and the YAML document update last — i.e. cleanup comes
immediately before, not after, the document update. -/
theorem main_success_order (verbose : Bool) (env : Env) (fs0 : FS) (travis0 : YDoc)
    (h : (main verbose env fs0 travis0).exit = .normal 0) :
    (main verbose env fs0 travis0).trace =
      [.remoteResolve, .credentialFetch, .publicKeyFetch, .encryptToken,
       .cleanupStep, .documentUpdate] := by
  rcases hg : env.gitRemotes with e | remotes
  · simp [main, hg, crashOutcome] at h
  · rcases hc : getOutputFromCommand env.herokuExit env.herokuOut env.herokuErr with e | chunks
    · simp [main, hg, hc, crashOutcome] at h
    · rcases hk : env.travisKey with e | key
      · simp [main, hg, hc, hk, crashOutcome] at h
      · rcases ho : env.opensslExit != 0 with _ | _
        · simp [main, hg, hc, hk, ho, crashOutcome, readFileSync_writeFileSync, clean_eq]
        · simp [main, hg, hc, hk, ho, crashOutcome] at h

/-- Concrete check for `main_success_order`: the all-success environment. -/
theorem main_success_order_witness :
    (main false envSuccess [] emptyDoc).exit = .normal 0 ∧
      (main false envSuccess [] emptyDoc).trace =
        [.remoteResolve, .credentialFetch, .publicKeyFetch, .encryptToken,
         .cleanupStep, .documentUpdate] :=
  ⟨by decide, main_success_order false envSuccess [] emptyDoc (by decide)⟩

/-- C9: the verbose flag (presence of a third process argument) changes only
what is logged to the console: the final temp-file state, the final
`.travis.yml` document, and whether the configuration file was rewritten are
identical between a verbose and a non-verbose run with the same external
behaviour. -/
theorem main_verbose_irrelevant (env : Env) (fs0 : FS) (travis0 : YDoc) :
    (main true env fs0 travis0).files = (main false env fs0 travis0).files ∧
    (main true env fs0 travis0).travisDoc = (main false env fs0 travis0).travisDoc ∧
    (main true env fs0 travis0).travisWritten =
      (main false env fs0 travis0).travisWritten := by
  rcases hg : env.gitRemotes with e | remotes
  · simp [main, hg, crashOutcome]
  · rcases hc : getOutputFromCommand env.herokuExit env.herokuOut env.herokuErr with e | chunks
    · simp [main, hg, hc, crashOutcome]
    · rcases hk : env.travisKey with e | key
      · simp [main, hg, hc, hk, crashOutcome]
      · rcases ho : env.opensslExit != 0 with _ | _
        · simp [main, hg, hc, hk, ho, crashOutcome, readFileSync_writeFileSync, clean_eq]
        · simp [main, hg, hc, hk, ho, crashOutcome]

end EncryptHerokuAuthToken
